import Mathlib

/-!
Shallow embedding of the voice-deck bilingual segmenter and playback
controller.  The base segmenter and controller are translated from
src/main.js; the sentence-boundary splitting segmenter and the second
speak variant are translated from src/unnamed/part_000.  Strings are
modelled as lists of characters (code points), machine behaviour of the
ECMAScript character classes is modelled by explicit code-point ranges.
-/

namespace VoiceDeck

/-- Characters matched by the ECMAScript whitespace class, which is also the
set removed by the trim method: tab through carriage return, space, no-break
space, ogham space mark, the en-quad..hair-space block, line separator,
paragraph separator, narrow no-break space, medium mathematical space,
ideographic space and the byte-order mark. -/
def isJsWhitespace (c : Char) : Bool :=
  decide ((0x9 ≤ c.toNat ∧ c.toNat ≤ 0xD) ∨ c.toNat = 0x20 ∨ c.toNat = 0xA0 ∨
    c.toNat = 0x1680 ∨ (0x2000 ≤ c.toNat ∧ c.toNat ≤ 0x200A) ∨ c.toNat = 0x2028 ∨
    c.toNat = 0x2029 ∨ c.toNat = 0x202F ∨ c.toNat = 0x205F ∨ c.toNat = 0x3000 ∨
    c.toNat = 0xFEFF)

/-- Characters matched by the Korean regular expression of parseText: Hangul
syllables, Hangul Jamo and Hangul compatibility Jamo code ranges. -/
def isKoreanChar (c : Char) : Bool :=
  decide ((0xAC00 ≤ c.toNat ∧ c.toNat ≤ 0xD7AF) ∨
    (0x1100 ≤ c.toNat ∧ c.toNat ≤ 0x11FF) ∨
    (0x3130 ≤ c.toNat ∧ c.toNat ≤ 0x318F))

/-- The punctuation and symbol characters of the neutral character class of
parseText, listed by code point: period, comma, bang, question mark, at sign,
hash, dollar, percent, caret, ampersand, asterisk, parentheses, underscore,
hyphen, plus, equals, colon, semicolon, double and single quote, angle
brackets, square brackets and curly brackets. -/
def isPunctChar (c : Char) : Bool :=
  decide (c.toNat = 0x2E ∨ c.toNat = 0x2C ∨ c.toNat = 0x21 ∨ c.toNat = 0x3F ∨
    c.toNat = 0x40 ∨ c.toNat = 0x23 ∨ c.toNat = 0x24 ∨ c.toNat = 0x25 ∨
    c.toNat = 0x5E ∨ c.toNat = 0x26 ∨ c.toNat = 0x2A ∨ c.toNat = 0x28 ∨
    c.toNat = 0x29 ∨ c.toNat = 0x5F ∨ c.toNat = 0x2D ∨ c.toNat = 0x2B ∨
    c.toNat = 0x3D ∨ c.toNat = 0x3A ∨ c.toNat = 0x3B ∨ c.toNat = 0x22 ∨
    c.toNat = 0x27 ∨ c.toNat = 0x3C ∨ c.toNat = 0x3E ∨ c.toNat = 0x5B ∨
    c.toNat = 0x5D ∨ c.toNat = 0x7B ∨ c.toNat = 0x7D)

/-- Neutral characters of parseText: decimal digits, whitespace, or the fixed
punctuation set. -/
def isNeutralChar (c : Char) : Bool :=
  decide (0x30 ≤ c.toNat ∧ c.toNat ≤ 0x39) || isJsWhitespace c || isPunctChar c

/-- Per-character class used by the segmenters. -/
inductive CharClass
  | ko
  | en
  | neutral
  deriving DecidableEq

/-- Character classification of parseText: the Korean ranges win, then the
neutral class, and everything else is treated as English. -/
def charClass (c : Char) : CharClass :=
  if isKoreanChar c then CharClass.ko
  else if isNeutralChar c then CharClass.neutral
  else CharClass.en

/-- The type field of the running segment: the strings unknown, en and ko of
the source. -/
inductive SegType
  | unknown
  | en
  | ko
  deriving DecidableEq

/-- A segment as built by parseText: its text and its type tag. -/
structure Seg where
  text : List Char
  type : SegType
  deriving DecidableEq

/-- Comparison of a character class against the current segment type, as the
source compares the charType string with the current type string (only ever
reached for non-neutral classes). -/
def classEqType : CharClass → SegType → Bool
  | CharClass.ko, SegType.ko => true
  | CharClass.en, SegType.en => true
  | _, _ => false

/-- Segment type stored for a character class (applied by the source only to
the non-neutral classes, where it is the class itself). -/
def typeOfClass : CharClass → SegType
  | CharClass.ko => SegType.ko
  | _ => SegType.en

/-- Type given to a fresh segment by its first character: neutral defaults to
English, otherwise the character class itself. -/
def initType : CharClass → SegType
  | CharClass.neutral => SegType.en
  | cc => typeOfClass cc

/-- The trim length check of parseText: true when the text contains some
non-whitespace character, that is, when trimming leaves it non-empty. -/
def trimNonempty (t : List Char) : Bool := t.any (fun c => ! isJsWhitespace c)

/-- The character scan loop of parseText in src/main.js, over the current
segment and the remaining characters.  An unknown type is initialised from
the first character and the character appended; a neutral or same-class
character is appended; a differing non-neutral class pushes the old segment
when its trimmed text is non-empty and opens a new one. -/
def parseLoop : Seg → List Char → List Seg
  | cur, [] => if trimNonempty cur.text then [cur] else []
  | cur, c :: rest =>
    if cur.type = SegType.unknown then
      parseLoop ⟨cur.text ++ [c], initType (charClass c)⟩ rest
    else if charClass c = CharClass.neutral then
      parseLoop ⟨cur.text ++ [c], cur.type⟩ rest
    else if classEqType (charClass c) cur.type then
      parseLoop ⟨cur.text ++ [c], cur.type⟩ rest
    else
      (if trimNonempty cur.text then [cur] else []) ++
        parseLoop ⟨[c], typeOfClass (charClass c)⟩ rest

/-- parseText of src/main.js: run the scan loop from an empty unknown
segment. -/
def parseText (t : List Char) : List Seg := parseLoop ⟨[], SegType.unknown⟩ t

/-- Sentence terminating characters of the enhanced parseText. -/
def isSentenceEnd (c : Char) : Bool :=
  c == '.' || c == '!' || c == '?' || c == '\n'

/-- The type the running segment commits to on reading a character in the
enhanced parseText: an unknown type is first initialised from that character,
otherwise the current type is kept. -/
def commitType (cur : Seg) (c : Char) : SegType :=
  if cur.type = SegType.unknown then initType (charClass c) else cur.type

/-- The split test of the enhanced parseText: the character class differs
from the committed type and is not neutral. -/
def switchNeeded (cc : CharClass) (ty : SegType) : Bool :=
  match cc with
  | CharClass.neutral => false
  | _ => ! classEqType cc ty

/-- The character scan loop of the enhanced parseText in
src/unnamed/part_000: an unknown type is first initialised from the current
character; a differing non-neutral class pushes the old segment when its text
is non-empty and opens a new one; otherwise the character is appended and, if
it terminates a sentence, the segment is pushed and the type reset to
unknown. -/
def parseLoopS : Seg → List Char → List Seg
  | cur, [] => if cur.text.isEmpty then [] else [cur]
  | cur, c :: rest =>
    if switchNeeded (charClass c) (commitType cur c) then
      (if cur.text.isEmpty then [] else [⟨cur.text, commitType cur c⟩]) ++
        parseLoopS ⟨[c], typeOfClass (charClass c)⟩ rest
    else if isSentenceEnd c then
      ⟨cur.text ++ [c], commitType cur c⟩ :: parseLoopS ⟨[], SegType.unknown⟩ rest
    else
      parseLoopS ⟨cur.text ++ [c], commitType cur c⟩ rest

/-- The enhanced parseText: run the scan loop and filter out the segments
whose text trims to nothing. -/
def parseTextS (t : List Char) : List Seg :=
  (parseLoopS ⟨[], SegType.unknown⟩ t).filter (fun s => trimNonempty s.text)

/-- Concatenation of the texts of a segment list, in order. -/
def concatTexts : List Seg → List Char
  | [] => []
  | s :: rest => s.text ++ concatTexts rest

/-- Aggregate playback state maintained through setSpeakingState. -/
inductive PState
  | idle
  | speaking
  deriving DecidableEq

/-- Kind of a per-utterance lifecycle callback raised by the speech engine. -/
inductive EvKind
  | ended
  | error
  deriving DecidableEq

/-- One request submitted to the speech engine: the segment text, the voice
resolved from the registry (none when the lookup failed and the voice field
was left unassigned), the shared rate and pitch, and whether an end or error
handler that sets the aggregate state back to idle is attached. -/
structure Utterance where
  text : List Char
  voice : Option String
  rate : Int
  pitch : Int
  endIdles : Bool
  errIdles : Bool
  deriving DecidableEq

/-- One utterance as built inside the forEach of speak in src/main.js for the
segment at position i of n: the voice name for the segment language is looked
up in the voice map and assigned only when found, rate and pitch are passed
through, and the handlers that reset the speaking state are attached only on
the last index. -/
def mkUttMain (vm : List (String × String)) (kn en : String) (r p : Int)
    (n i : Nat) (s : Seg) : Utterance :=
  ⟨s.text, vm.lookup (if s.type = SegType.ko then kn else en), r, p,
    decide (i = n - 1), decide (i = n - 1)⟩

/-- The utterances built by the forEach of speak in src/main.js, starting at
index i. -/
def mkUttsMain (vm : List (String × String)) (kn en : String) (r p : Int)
    (n : Nat) : Nat → List Seg → List Utterance
  | _, [] => []
  | i, s :: rest =>
    mkUttMain vm kn en r p n i s :: mkUttsMain vm kn en r p n (i + 1) rest

/-- One utterance as built by the second speak variant of
src/unnamed/part_000: same voice, rate and pitch handling, the end handler
resets the state only on the last index, but the error handler resets the
state on every utterance. -/
def mkUttVar (vm : List (String × String)) (kn en : String) (r p : Int)
    (n i : Nat) (s : Seg) : Utterance :=
  ⟨s.text, vm.lookup (if s.type = SegType.ko then kn else en), r, p,
    decide (i = n - 1), true⟩

/-- The utterances built by the second speak variant of
src/unnamed/part_000, starting at index i. -/
def mkUttsVar (vm : List (String × String)) (kn en : String) (r p : Int)
    (n : Nat) : Nat → List Seg → List Utterance
  | _, [] => []
  | i, s :: rest =>
    mkUttVar vm kn en r p n i s :: mkUttsVar vm kn en r p n (i + 1) rest

/-- Effect of an end or error callback for the utterance at position i on the
aggregate state: the attached handler, when present, sets the state to idle;
an utterance without a handler at that position leaves the state unchanged. -/
def applyEvent (us : List Utterance) (i : Nat) (k : EvKind) (s : PState) : PState :=
  match us[i]? with
  | none => s
  | some u =>
    match k with
    | EvKind.ended => if u.endIdles then PState.idle else s
    | EvKind.error => if u.errIdles then PState.idle else s

/-- Fold a list of lifecycle callbacks over the aggregate state. -/
def runEvents (us : List Utterance) (evs : List (Nat × EvKind)) (s : PState) : PState :=
  evs.foldl (fun st e => applyEvent us e.1 e.2 st) s

/-- Controller state: the aggregate flag maintained through setSpeakingState
together with the queue of utterances pending at the speech engine (the
engine reports speaking exactly when this queue is non-empty). -/
structure Ctl where
  tracked : PState
  queue : List Utterance
  deriving DecidableEq

/-- The speak function of src/main.js: returns immediately when the engine is
already speaking; otherwise, for a non-empty text, sets the speaking state
first and then queues one utterance per parsed segment (a whitespace-only
text therefore flips the state while queueing nothing). -/
def speakCtl (vm : List (String × String)) (kn en : String) (r p : Int)
    (c : Ctl) (text : List Char) : Ctl :=
  if c.queue ≠ [] then c
  else if text = [] then c
  else ⟨PState.speaking,
    mkUttsMain vm kn en r p (parseText text).length 0 (parseText text)⟩

/-- The stop button handler of src/main.js: when the engine is speaking,
cancel the whole queue and reset the speaking state; otherwise do nothing. -/
def stopCtl (c : Ctl) : Ctl :=
  if c.queue ≠ [] then ⟨PState.idle, []⟩ else c

/-- A whitespace character belongs to the neutral class. -/
theorem isNeutralChar_of_ws (c : Char) (h : isJsWhitespace c = true) :
    isNeutralChar c = true := by
  simp [isNeutralChar, h]

/-- The whitespace set and the Korean ranges are disjoint. -/
theorem not_korean_of_ws (c : Char) (h : isJsWhitespace c = true) :
    isKoreanChar c = false := by
  simp only [isJsWhitespace, decide_eq_true_eq] at h
  simp only [isKoreanChar, decide_eq_false_iff_not]
  omega

/-- A whitespace character is classified as neutral. -/
theorem charClass_of_ws (c : Char) (h : isJsWhitespace c = true) :
    charClass c = CharClass.neutral := by
  simp [charClass, not_korean_of_ws c h, isNeutralChar_of_ws c h]

/-- A character whose class is not neutral is not whitespace. -/
theorem not_ws_of_not_neutral (c : Char) (h : charClass c ≠ CharClass.neutral) :
    isJsWhitespace c = false := by
  by_cases hw : isJsWhitespace c = true
  · exact absurd (charClass_of_ws c hw) h
  · simpa using hw

/-- The neutral character set and the Korean ranges are disjoint. -/
theorem not_korean_of_neutral (c : Char) (h : isNeutralChar c = true) :
    isKoreanChar c = false := by
  simp only [isNeutralChar, Bool.or_eq_true, decide_eq_true_eq,
    isJsWhitespace, isPunctChar] at h
  simp only [isKoreanChar, decide_eq_false_iff_not]
  omega

/-- A neutral character is classified as neutral. -/
theorem charClass_of_neutral (c : Char) (h : isNeutralChar c = true) :
    charClass c = CharClass.neutral := by
  simp [charClass, not_korean_of_neutral c h, h]

/-- Appending on the right preserves a non-empty trim. -/
theorem trimNonempty_append_left (a b : List Char) (h : trimNonempty a = true) :
    trimNonempty (a ++ b) = true := by
  simp only [trimNonempty, List.any_append, Bool.or_eq_true]
  exact Or.inl h

/-- Text with a non-empty trim is non-empty. -/
theorem ne_nil_of_trimNonempty (t : List Char) (h : trimNonempty t = true) :
    t ≠ [] := by
  intro he
  subst he
  simp [trimNonempty] at h

/-- Text whose trim is empty is all whitespace. -/
theorem all_ws_of_not_trim (t : List Char) (h : trimNonempty t = false) :
    ∀ a ∈ t, isJsWhitespace a = true := by
  intro a ha
  by_cases hw : isJsWhitespace a = true
  · exact hw
  · exfalso
    have : trimNonempty t = true := by
      unfold trimNonempty
      exact List.any_eq_true.mpr ⟨a, ha, by simp [hw]⟩
    rw [this] at h
    exact absurd h (by decide)

/-- The initialised type of a fresh segment is never unknown. -/
theorem initType_ne_unknown (cc : CharClass) : initType cc ≠ SegType.unknown := by
  cases cc <;> simp [initType, typeOfClass]

/-- The type recorded on a language switch is never unknown. -/
theorem typeOfClass_ne_unknown (cc : CharClass) : typeOfClass cc ≠ SegType.unknown := by
  cases cc <;> simp [typeOfClass]

/-- A segment type other than unknown is one of the two languages. -/
theorem segType_cases (ty : SegType) (h : ty ≠ SegType.unknown) :
    ty = SegType.en ∨ ty = SegType.ko := by
  cases ty with
  | unknown => exact absurd rfl h
  | en => exact Or.inl rfl
  | ko => exact Or.inr rfl

/-- When the running segment already trims non-empty, the base scan loop
loses no character: the concatenation of the emitted texts is exactly the
running buffer followed by the rest of the input. -/
theorem concatTexts_parseLoop_full :
    ∀ (rest : List Char) (cur : Seg), trimNonempty cur.text = true →
      concatTexts (parseLoop cur rest) = cur.text ++ rest := by
  intro rest
  induction rest with
  | nil =>
    intro cur h
    simp [parseLoop, h, concatTexts]
  | cons c rest ih =>
    intro cur h
    have htr : trimNonempty (cur.text ++ [c]) = true := trimNonempty_append_left _ _ h
    by_cases h1 : cur.type = SegType.unknown
    · simp only [parseLoop, h1, if_true]
      rw [ih _ htr]
      simp
    · by_cases h2 : charClass c = CharClass.neutral
      · simp only [parseLoop, h1, if_false, h2, if_true]
        rw [ih _ htr]
        simp
      · by_cases h3 : classEqType (charClass c) cur.type = true
        · simp only [parseLoop, h1, if_false, h2, if_false, h3, if_true]
          rw [ih _ htr]
          simp
        · have hw : isJsWhitespace c = false := not_ws_of_not_neutral c h2
          have htc : trimNonempty [c] = true := by simp [trimNonempty, hw]
          simp only [parseLoop, h1, if_false, h2, if_false, h3, if_true, h,
            List.singleton_append, concatTexts]
          rw [ih _ htc]
          simp

/-- The base scan loop reconstructs its input up to a leading all-whitespace
run: the running buffer followed by the rest of the input equals some
whitespace-only prefix followed by the concatenation of the emitted texts. -/
theorem parseLoop_reconstruct :
    ∀ (rest : List Char) (cur : Seg),
      ∃ p : List Char, (∀ a ∈ p, isJsWhitespace a = true) ∧
        cur.text ++ rest = p ++ concatTexts (parseLoop cur rest) := by
  intro rest
  induction rest with
  | nil =>
    intro cur
    by_cases h : trimNonempty cur.text = true
    · exact ⟨[], by simp, by simp [parseLoop, h, concatTexts]⟩
    · have hb : trimNonempty cur.text = false := by simpa using h
      exact ⟨cur.text, all_ws_of_not_trim _ hb,
        by simp [parseLoop, hb, concatTexts]⟩
  | cons c rest ih =>
    intro cur
    by_cases h1 : cur.type = SegType.unknown
    · obtain ⟨p, hp, he⟩ := ih ⟨cur.text ++ [c], initType (charClass c)⟩
      refine ⟨p, hp, ?_⟩
      simp only [parseLoop, h1, if_true]
      simpa using he
    · by_cases h2 : charClass c = CharClass.neutral
      · obtain ⟨p, hp, he⟩ := ih ⟨cur.text ++ [c], cur.type⟩
        refine ⟨p, hp, ?_⟩
        simp only [parseLoop, h1, if_false, h2, if_true]
        simpa using he
      · by_cases h3 : classEqType (charClass c) cur.type = true
        · obtain ⟨p, hp, he⟩ := ih ⟨cur.text ++ [c], cur.type⟩
          refine ⟨p, hp, ?_⟩
          simp only [parseLoop, h1, if_false, h2, if_false, h3, if_true]
          simpa using he
        · have hw : isJsWhitespace c = false := not_ws_of_not_neutral c h2
          have htc : trimNonempty [c] = true := by simp [trimNonempty, hw]
          have hfull : concatTexts (parseLoop ⟨[c], typeOfClass (charClass c)⟩ rest) =
              [c] ++ rest := concatTexts_parseLoop_full rest _ htc
          by_cases h4 : trimNonempty cur.text = true
          · refine ⟨[], by simp, ?_⟩
            simp [parseLoop, h1, h2, h3, h4, concatTexts, hfull]
          · have hb : trimNonempty cur.text = false := by simpa using h4
            refine ⟨cur.text, all_ws_of_not_trim _ hb, ?_⟩
            simp [parseLoop, h1, h2, h3, hb, concatTexts, hfull]

/-- Claim C1 (amended, base segmenter of src/main.js): for every input,
concatenating the texts of the segments returned by parseText, in order,
yields the input with at most one leading whitespace-only run removed; no
other character is duplicated or lost.  In particular a whitespace-only input
yields no segments, and otherwise only a whitespace-only first segment is
ever dropped. -/
theorem parseText_reconstruct (t : List Char) :
    ∃ p : List Char, (∀ a ∈ p, isJsWhitespace a = true) ∧
      t = p ++ concatTexts (parseText t) := by
  obtain ⟨p, hp, he⟩ := parseLoop_reconstruct t ⟨[], SegType.unknown⟩
  exact ⟨p, hp, by simpa using he⟩

/-- Claim C1 (counterexample, sentence-splitting segmenter of
src/unnamed/part_000): on the input a-period-newline-b the variant segmenter
drops the interior whitespace-only sentence segment consisting of the
newline, so no decomposition of the input into a whitespace-only prefix, the
concatenated segment texts, and a whitespace-only suffix exists; characters
are lost outside the boundary runs, refuting the claim as stated for this
cited implementation. -/
theorem variant_drops_interior_ws :
    concatTexts (parseTextS ('a' :: '.' :: '\n' :: 'b' :: [])) =
      ('a' :: '.' :: 'b' :: []) ∧
    ¬ ∃ p s : List Char, (∀ a ∈ p, isJsWhitespace a = true) ∧
        (∀ a ∈ s, isJsWhitespace a = true) ∧
        ('a' :: '.' :: '\n' :: 'b' :: []) =
          p ++ concatTexts (parseTextS ('a' :: '.' :: '\n' :: 'b' :: [])) ++ s := by
  have hval : concatTexts (parseTextS ('a' :: '.' :: '\n' :: 'b' :: [])) =
      ('a' :: '.' :: 'b' :: []) := by decide
  refine ⟨hval, ?_⟩
  rintro ⟨p, s, hp, hs, heq⟩
  rw [hval] at heq
  cases p with
  | nil =>
    simp only [List.nil_append, List.cons_append] at heq
    injection heq with h1 heq
    injection heq with h2 heq
    injection heq with h3 heq
    exact absurd h3 (by decide)
  | cons a p =>
    simp only [List.cons_append] at heq
    injection heq with h1 heq
    have hwa := hp a (by simp)
    rw [← h1] at hwa
    exact absurd hwa (by decide)

/-- Claim C4: segmenting the string Hello-space-annyeonghaseyo-space-world
with the base segmenter yields exactly three segments in order: the English
segment Hello with its trailing space absorbed, the Korean segment with its
trailing space absorbed, and the English segment world. -/
theorem hello_world_segments :
    parseText (("Hello 안녕하세요 world").data) =
      ⟨("Hello ").data, SegType.en⟩ :: ⟨("안녕하세요 ").data, SegType.ko⟩ ::
        ⟨("world").data, SegType.en⟩ :: [] := by
  decide

/-- Over neutral-only remaining input the base scan loop never switches: an
English segment simply absorbs everything, and is emitted exactly when the
whole accumulated text trims non-empty. -/
theorem parseLoop_all_neutral :
    ∀ (cs txt : List Char), (∀ c ∈ cs, isNeutralChar c = true) →
      parseLoop ⟨txt, SegType.en⟩ cs =
        if trimNonempty (txt ++ cs) then [⟨txt ++ cs, SegType.en⟩] else [] := by
  intro cs
  induction cs with
  | nil =>
    intro txt h
    simp [parseLoop]
  | cons c cs ih =>
    intro txt h
    have hc : charClass c = CharClass.neutral := charClass_of_neutral c (h c (by simp))
    have hstep : parseLoop ⟨txt, SegType.en⟩ (c :: cs) =
        parseLoop ⟨txt ++ [c], SegType.en⟩ cs := by
      simp [parseLoop, hc]
    rw [hstep, ih (txt ++ [c]) (fun x hx => h x (List.mem_cons_of_mem _ hx))]
    simp

/-- Claim C5 (amended): every non-empty input made solely of neutral
characters that contains at least one non-whitespace character yields exactly
one segment, tagged English, whose text is the whole input; a whitespace-only
input, although non-empty and neutral-only, yields no segments. -/
theorem segment_neutral_only (t : List Char) (h1 : t ≠ [])
    (h2 : ∀ c ∈ t, isNeutralChar c = true) (h3 : trimNonempty t = true) :
    parseText t = [⟨t, SegType.en⟩] := by
  cases t with
  | nil => exact absurd rfl h1
  | cons c cs =>
    have hc : charClass c = CharClass.neutral := charClass_of_neutral c (h2 c (by simp))
    have hstep : parseText (c :: cs) = parseLoop ⟨[c], SegType.en⟩ cs := by
      simp [parseText, parseLoop, hc, initType]
    rw [hstep, parseLoop_all_neutral cs [c] (fun x hx => h2 x (List.mem_cons_of_mem _ hx))]
    simpa using h3

/-- Claim C5 (witness): the digits-and-punctuation example yields one English
segment holding the whole string. -/
theorem segment_neutral_only_witness :
    parseText (("123, 456!").data) = [⟨("123, 456!").data, SegType.en⟩] :=
  segment_neutral_only (("123, 456!").data) (by decide) (by decide) (by decide)

/-- Claim C5 (counterexample): a single space is a non-empty input consisting
solely of neutral characters, yet the base segmenter returns no segment at
all rather than one Latin segment holding the whole input. -/
theorem whitespace_neutral_cex :
    ((' ' :: []) : List Char) ≠ [] ∧
    (∀ c ∈ ((' ' :: []) : List Char), isNeutralChar c = true) ∧
    parseText (' ' :: []) = [] := by
  decide

/-- Claim C6: in the sentence-boundary splitting segmenter, a sentence
terminating character is always appended to the current buffer (it is
neutral, so it can never open a new segment), the segment is closed
immediately after it regardless of the language accumulated so far, and the
scan continues with the type reset to unknown so that the next sentence
re-detects its language from its own first character. -/
theorem sentence_end_splits (cur : Seg) (c : Char) (rest : List Char)
    (h : isSentenceEnd c = true) :
    parseLoopS cur (c :: rest) =
      ⟨cur.text ++ [c],
        if cur.type = SegType.unknown then SegType.en else cur.type⟩ ::
      parseLoopS ⟨[], SegType.unknown⟩ rest := by
  have hc : charClass c = CharClass.neutral := by
    have h4 : ((c = '.' ∨ c = '!') ∨ c = '?') ∨ c = '\n' := by
      simpa [isSentenceEnd] using h
    rcases h4 with ((h4 | h4) | h4) | h4 <;> subst h4 <;> decide
  simp [parseLoopS, switchNeeded, commitType, hc, h, initType]

/-- Claim C6 (witness): with an English segment holding the letter a open,
a period closes the segment right after itself and resets the type. -/
theorem sentence_end_splits_witness :
    parseLoopS ⟨['a'], SegType.en⟩ ('.' :: []) =
      ⟨['a'] ++ ['.'],
        if (SegType.en : SegType) = SegType.unknown then SegType.en else SegType.en⟩ ::
      parseLoopS ⟨[], SegType.unknown⟩ [] :=
  sentence_end_splits ⟨['a'], SegType.en⟩ '.' [] (by decide)

/-- Every segment emitted by the base scan loop trims non-empty and carries a
committed type, provided the running segment has a committed type whenever
its buffer is non-empty. -/
theorem parseLoop_wf :
    ∀ (rest : List Char) (cur : Seg), (cur.text ≠ [] → cur.type ≠ SegType.unknown) →
      ∀ s ∈ parseLoop cur rest,
        trimNonempty s.text = true ∧ s.type ≠ SegType.unknown := by
  intro rest
  induction rest with
  | nil =>
    intro cur hinv s hs
    by_cases h : trimNonempty cur.text = true
    · simp only [parseLoop, h, if_true, List.mem_singleton] at hs
      subst hs
      exact ⟨h, hinv (ne_nil_of_trimNonempty _ h)⟩
    · simp [parseLoop, h] at hs
  | cons c rest ih =>
    intro cur hinv s hs
    by_cases h1 : cur.type = SegType.unknown
    · simp only [parseLoop, h1, if_true] at hs
      exact ih ⟨cur.text ++ [c], initType (charClass c)⟩
        (fun _ => initType_ne_unknown _) s hs
    · by_cases h2 : charClass c = CharClass.neutral
      · simp only [parseLoop, h1, if_false, h2, if_true] at hs
        exact ih ⟨cur.text ++ [c], cur.type⟩ (fun _ => h1) s hs
      · by_cases h3 : classEqType (charClass c) cur.type = true
        · simp only [parseLoop, h1, if_false, h2, if_false, h3, if_true] at hs
          exact ih ⟨cur.text ++ [c], cur.type⟩ (fun _ => h1) s hs
        · have hstep : parseLoop cur (c :: rest) =
              (if trimNonempty cur.text then [cur] else []) ++
                parseLoop ⟨[c], typeOfClass (charClass c)⟩ rest := by
            simp [parseLoop, h1, h2, h3]
          rw [hstep, List.mem_append] at hs
          rcases hs with hs | hs
          · by_cases h4 : trimNonempty cur.text = true
            · simp only [h4, if_true, List.mem_singleton] at hs
              subst hs
              exact ⟨h4, h1⟩
            · simp [h4] at hs
          · exact ih ⟨[c], typeOfClass (charClass c)⟩
              (fun _ => typeOfClass_ne_unknown _) s hs

/-- Every segment emitted by the sentence-splitting scan loop with a
non-empty buffer carries a committed type, provided the running segment has a
committed type whenever its buffer is non-empty. -/
theorem parseLoopS_wf :
    ∀ (rest : List Char) (cur : Seg), (cur.text ≠ [] → cur.type ≠ SegType.unknown) →
      ∀ s ∈ parseLoopS cur rest, s.text ≠ [] → s.type ≠ SegType.unknown := by
  intro rest
  induction rest with
  | nil =>
    intro cur hinv s hs
    by_cases h : cur.text.isEmpty = true
    · simp [parseLoopS, h] at hs
    · have hstep : parseLoopS cur [] = [cur] := by simp [parseLoopS, h]
      rw [hstep, List.mem_singleton] at hs
      subst hs
      exact fun _ => hinv (by simpa using h)
  | cons c rest ih =>
    intro cur hinv s hs
    have hty : commitType cur c ≠ SegType.unknown := by
      by_cases h1 : cur.type = SegType.unknown
      · simpa [commitType, h1] using initType_ne_unknown (charClass c)
      · simp [commitType, h1]
    by_cases hsw : switchNeeded (charClass c) (commitType cur c) = true
    · simp only [parseLoopS, hsw, if_true] at hs
      rw [List.mem_append] at hs
      rcases hs with hs | hs
      · by_cases h0 : cur.text.isEmpty = true
        · simp [h0] at hs
        · have hone : (if cur.text.isEmpty then ([] : List Seg)
              else [⟨cur.text, commitType cur c⟩]) = [⟨cur.text, commitType cur c⟩] := by
            simp [h0]
          rw [hone, List.mem_singleton] at hs
          subst hs
          exact fun _ => hty
      · exact ih ⟨[c], typeOfClass (charClass c)⟩
          (fun _ => typeOfClass_ne_unknown _) s hs
    · by_cases hse : isSentenceEnd c = true
      · have hstep : parseLoopS cur (c :: rest) =
            ⟨cur.text ++ [c], commitType cur c⟩ ::
              parseLoopS ⟨[], SegType.unknown⟩ rest := by
          simp [parseLoopS, hsw, hse]
        rw [hstep, List.mem_cons] at hs
        rcases hs with hs | hs
        · subst hs
          exact fun _ => hty
        · exact ih ⟨[], SegType.unknown⟩ (by intro hx; exact absurd rfl hx) s hs
      · have hstep : parseLoopS cur (c :: rest) =
            parseLoopS ⟨cur.text ++ [c], commitType cur c⟩ rest := by
          simp [parseLoopS, hsw, hse]
        rw [hstep] at hs
        exact ih ⟨cur.text ++ [c], commitType cur c⟩ (fun _ => hty) s hs

/-- Claim C7: for every input string, every segment returned by the base
segmenter and every segment returned by the sentence-splitting segmenter has
text that trims non-empty and a type tag that is English or Korean, never
unknown; whitespace-only runs are never emitted. -/
theorem segments_wellformed (t : List Char) :
    (∀ s ∈ parseText t,
      trimNonempty s.text = true ∧ (s.type = SegType.en ∨ s.type = SegType.ko)) ∧
    (∀ s ∈ parseTextS t,
      trimNonempty s.text = true ∧ (s.type = SegType.en ∨ s.type = SegType.ko)) := by
  constructor
  · intro s hs
    obtain ⟨ht, hu⟩ := parseLoop_wf t ⟨[], SegType.unknown⟩
      (by intro hx; exact absurd rfl hx) s hs
    exact ⟨ht, segType_cases _ hu⟩
  · intro s hs
    rw [parseTextS, List.mem_filter] at hs
    obtain ⟨hm, ht⟩ := hs
    have hu := parseLoopS_wf t ⟨[], SegType.unknown⟩
      (by intro hx; exact absurd rfl hx) s hm (ne_nil_of_trimNonempty _ ht)
    exact ⟨ht, segType_cases _ hu⟩

/-- Claim C7 (witness): the single segment produced for the letter a trims
non-empty and is tagged with a language. -/
theorem segments_wellformed_witness :
    trimNonempty ((⟨['a'], SegType.en⟩ : Seg)).text = true ∧
      ((⟨['a'], SegType.en⟩ : Seg).type = SegType.en ∨
        (⟨['a'], SegType.en⟩ : Seg).type = SegType.ko) :=
  (segments_wellformed ('a' :: [])).1 ⟨['a'], SegType.en⟩ (by decide)

/-- The utterance list of the main speak has one utterance per segment. -/
theorem mkUttsMain_length (vm : List (String × String)) (kn en : String)
    (r p : Int) (n : Nat) :
    ∀ (segs : List Seg) (j : Nat), (mkUttsMain vm kn en r p n j segs).length = segs.length := by
  intro segs
  induction segs with
  | nil => intro j; rfl
  | cons s rest ih =>
    intro j
    simp [mkUttsMain, ih (j + 1)]

/-- The utterance at position i of the main speak queue started at index j is
the one built for segment i with running index j plus i. -/
theorem mkUttsMain_get (vm : List (String × String)) (kn en : String)
    (r p : Int) (n : Nat) :
    ∀ (segs : List Seg) (j i : Nat) (h : i < segs.length),
      (mkUttsMain vm kn en r p n j segs)[i]? =
        some (mkUttMain vm kn en r p n (j + i) (segs.get ⟨i, h⟩)) := by
  intro segs
  induction segs with
  | nil =>
    intro j i h
    exact absurd h (by simp)
  | cons s rest ih =>
    intro j i h
    cases i with
    | zero => simp [mkUttsMain]
    | succ i =>
      have hlt : i < rest.length := by simpa using Nat.lt_of_succ_lt_succ h
      have hcons : mkUttsMain vm kn en r p n j (s :: rest) =
          mkUttMain vm kn en r p n j s :: mkUttsMain vm kn en r p n (j + 1) rest := rfl
      rw [hcons, List.getElem?_cons_succ, ih (j + 1) i hlt]
      have harith : j + 1 + i = j + (i + 1) := by omega
      rw [harith]
      rfl

/-- Claim C2 (amended, src/main.js): in a session of queued segments built by
speak, an end or error callback on the segment at position i moves the
aggregate state from Speaking to Idle exactly when i is the last position,
and an error callback has the same effect as an end callback at every
position, because the only handlers attached are those of the last segment
and both reset the speaking state. -/
theorem callbacks_last_only (vm : List (String × String)) (kn en : String)
    (r p : Int) (segs : List Seg) (i : Nat) (k : EvKind) (h : i < segs.length) :
    (applyEvent (mkUttsMain vm kn en r p segs.length 0 segs) i k PState.speaking =
        PState.idle ↔ i = segs.length - 1) ∧
    applyEvent (mkUttsMain vm kn en r p segs.length 0 segs) i EvKind.error
        PState.speaking =
      applyEvent (mkUttsMain vm kn en r p segs.length 0 segs) i EvKind.ended
        PState.speaking := by
  have hg := mkUttsMain_get vm kn en r p segs.length segs 0 i h
  rw [Nat.zero_add] at hg
  constructor
  · rw [applyEvent, hg]
    by_cases he : i = segs.length - 1
    · cases k <;> simp [mkUttMain, he]
    · cases k <;> simp [mkUttMain, he]
  · rw [applyEvent, applyEvent, hg]
    simp [mkUttMain]

/-- Claim C2 (witness): in a two-segment session, the end callback on the
second segment moves the state to Idle, and error behaves like end there. -/
theorem callbacks_last_only_witness :
    (applyEvent (mkUttsMain [] ("k") ("e") 1 1 2 0
        (⟨['a'], SegType.en⟩ :: ⟨['b'], SegType.en⟩ :: [])) 1 EvKind.ended
        PState.speaking = PState.idle ↔ 1 = 2 - 1) ∧
    applyEvent (mkUttsMain [] ("k") ("e") 1 1 2 0
        (⟨['a'], SegType.en⟩ :: ⟨['b'], SegType.en⟩ :: [])) 1 EvKind.error
        PState.speaking =
      applyEvent (mkUttsMain [] ("k") ("e") 1 1 2 0
        (⟨['a'], SegType.en⟩ :: ⟨['b'], SegType.en⟩ :: [])) 1 EvKind.ended
        PState.speaking :=
  callbacks_last_only [] ("k") ("e") 1 1
    (⟨['a'], SegType.en⟩ :: ⟨['b'], SegType.en⟩ :: []) 1 EvKind.ended (by decide)

/-- Claim C2 (counterexample, second speak variant of src/unnamed/part_000):
in a two-segment session built by that variant, an error callback on the
first, mid-queue segment already moves the aggregate state to Idle, while an
end callback on the same segment leaves it Speaking — so a mid-queue error is
not treated like a completion and does change the aggregate state, refuting
the claim as stated for this cited implementation. -/
theorem midqueue_error_idles :
    applyEvent (mkUttsVar [] ("k2") ("e2") 1 1 2 0
        (⟨['a'], SegType.en⟩ :: ⟨['b'], SegType.en⟩ :: [])) 0 EvKind.error
        PState.speaking = PState.idle ∧
    applyEvent (mkUttsVar [] ("k2") ("e2") 1 1 2 0
        (⟨['a'], SegType.en⟩ :: ⟨['b'], SegType.en⟩ :: [])) 0 EvKind.ended
        PState.speaking = PState.speaking := by
  decide

/-- Claim C3 (code bug): starting from Idle with a single space — a
non-empty text whose segment list is empty — the controller model translated
from speak flips the aggregate state to Speaking while submitting no
utterance at all, because setSpeakingState true runs before the segment list
is inspected; the spec says the controller remains Idle on empty segmenter
output.  With nothing queued no callback ever fires and the stop handler is
guarded on the engine speaking, so the state never returns to Idle. -/
theorem speak_whitespace_bug :
    parseText (' ' :: []) = [] ∧
    speakCtl [] ("Yuna") ("Samantha") 10 10 ⟨PState.idle, []⟩ (' ' :: []) =
      ⟨PState.speaking, []⟩ := by
  decide

/-- Claim C8 (amended): start is a no-op — state, queue and submissions all
unchanged — whenever the speech engine still holds queued utterances, which
covers every Speaking state with an active session; the speak guard returns
immediately when the engine is speaking. -/
theorem start_noop_when_queue (vm : List (String × String)) (kn en : String)
    (r p : Int) (c : Ctl) (text : List Char) (h : c.queue ≠ []) :
    speakCtl vm kn en r p c text = c := by
  simp [speakCtl, h]

/-- Claim C8 (witness): with one utterance pending, start changes nothing. -/
theorem start_noop_when_queue_witness :
    speakCtl [] ("k3") ("e3") 1 1
      ⟨PState.speaking, ⟨['a'], none, 1, 1, true, true⟩ :: []⟩ ('b' :: []) =
      ⟨PState.speaking, ⟨['a'], none, 1, 1, true, true⟩ :: []⟩ :=
  start_noop_when_queue [] ("k3") ("e3") 1 1
    ⟨PState.speaking, ⟨['a'], none, 1, 1, true, true⟩ :: []⟩ ('b' :: []) (by decide)

/-- Claim C8 (counterexample): the state whose aggregate flag says Speaking
but whose engine queue is empty is reachable by a start on a single space;
from it, a further start on the letter a is not a no-op — it submits a new
segment and changes the controller — because the speak guard tests the
engine, not the aggregate flag, refuting the claim as stated. -/
theorem start_during_speaking_cex :
    speakCtl [] ("k4") ("e4") 10 10 ⟨PState.idle, []⟩ (' ' :: []) =
      ⟨PState.speaking, []⟩ ∧
    speakCtl [] ("k4") ("e4") 10 10 ⟨PState.speaking, []⟩ ('a' :: []) ≠
      ⟨PState.speaking, []⟩ := by
  decide

/-- Handlers only ever reset the state, so no callback moves an idle
aggregate state back to speaking. -/
theorem applyEvent_idle (us : List Utterance) (i : Nat) (k : EvKind) :
    applyEvent us i k PState.idle = PState.idle := by
  unfold applyEvent
  cases h : us[i]? with
  | none => rfl
  | some u => cases k <;> simp

/-- Claim C9 (amended): stop invoked while the engine queue is non-empty —
any genuinely speaking or paused session — cancels everything, discards the
queue and moves the controller to Idle; stop is idempotent from every state;
and once the state is Idle, no sequence of late end or error callbacks for
the cancelled session ever returns it to Speaking, since every attached
handler only resets the state. -/
theorem stop_semantics :
    (∀ c : Ctl, c.queue ≠ [] → stopCtl c = ⟨PState.idle, []⟩) ∧
    (∀ c : Ctl, stopCtl (stopCtl c) = stopCtl c) ∧
    (∀ (us : List Utterance) (evs : List (Nat × EvKind)),
      runEvents us evs PState.idle = PState.idle) := by
  refine ⟨?_, ?_, ?_⟩
  · intro c h
    simp [stopCtl, h]
  · intro c
    by_cases h : c.queue = []
    · simp [stopCtl, h]
    · simp [stopCtl, h]
  · intro us evs
    induction evs with
    | nil => rfl
    | cons e evs ih =>
      show runEvents us evs (applyEvent us e.1 e.2 PState.idle) = PState.idle
      rw [applyEvent_idle]
      exact ih

/-- Claim C9 (witness): stop on a session with one pending utterance cancels
it and moves the controller to Idle. -/
theorem stop_semantics_witness :
    stopCtl ⟨PState.speaking, ⟨['a'], none, 1, 1, true, true⟩ :: []⟩ =
      ⟨PState.idle, []⟩ :=
  stop_semantics.1 ⟨PState.speaking, ⟨['a'], none, 1, 1, true, true⟩ :: []⟩ (by decide)

/-- Claim C9 (counterexample): the non-Idle state whose aggregate flag says
Speaking but whose engine queue is empty is reachable by a start on a single
space; stop there is a no-op because its guard tests the engine queue, so the
controller does not transition to Idle, refuting the claim as stated. -/
theorem stop_nonidle_noop_cex :
    speakCtl [] ("k5") ("e5") 10 10 ⟨PState.idle, []⟩ (' ' :: []) =
      ⟨PState.speaking, []⟩ ∧
    stopCtl ⟨PState.speaking, []⟩ = ⟨PState.speaking, []⟩ ∧
    PState.speaking ≠ PState.idle := by
  decide

/-- Claim C10: for every segment position of a session built by speak, even
when the voice name chosen for the segment language is absent from the voice
registry, the utterance at that position is still present, in order, carrying
the segment text and the shared rate and pitch, with no voice assigned; the
queue keeps one utterance per segment, so a failed lookup never prevents,
drops or reorders a submission. -/
theorem voice_fallback (vm : List (String × String)) (kn en : String)
    (r p : Int) (segs : List Seg) (i : Nat) (h : i < segs.length)
    (hlk : vm.lookup (if (segs.get ⟨i, h⟩).type = SegType.ko then kn else en) = none) :
    (mkUttsMain vm kn en r p segs.length 0 segs).length = segs.length ∧
    (mkUttsMain vm kn en r p segs.length 0 segs)[i]? =
      some ⟨(segs.get ⟨i, h⟩).text, none, r, p,
        decide (i = segs.length - 1), decide (i = segs.length - 1)⟩ := by
  refine ⟨mkUttsMain_length vm kn en r p segs.length segs 0, ?_⟩
  rw [mkUttsMain_get vm kn en r p segs.length segs 0 i h, Nat.zero_add]
  rw [List.get_eq_getElem] at hlk
  simp [mkUttMain, hlk]

/-- Claim C10 (witness): with an empty registry the single segment is still
submitted with its text, rate and pitch and no voice. -/
theorem voice_fallback_witness :
    (mkUttsMain [] ("Yuna") ("Samantha") 2 1 1 0
        (⟨['a'], SegType.en⟩ :: [])).length = 1 ∧
    (mkUttsMain [] ("Yuna") ("Samantha") 2 1 1 0
        (⟨['a'], SegType.en⟩ :: []))[0]? =
      some ⟨['a'], none, 2, 1, decide (0 = 1 - 1), decide (0 = 1 - 1)⟩ :=
  voice_fallback [] ("Yuna") ("Samantha") 2 1 (⟨['a'], SegType.en⟩ :: []) 0
    (by decide) (by decide)

